import Mathlib

/-!
Verification of the Time Slices timeline-scrubber widget.

The repository ships several independent rewrites of one component, a
scrubber that keeps a visual control synchronized with the scroll position
of a long list of time-stamped entries.  The definitions below are shallow
embeddings of the relevant functions of those rewrites:

* `render_tickY` — the proportional-by-time tick position of the simple bar
  variant (`src/unnamed/part_002`, `render`);
* `scanBrackets` / `getCurrentPosition` — the interpolating resolver of the
  third variant in `src/time-disc.js` (`getCurrentPosition`);
* `snapSelect` — the nearest-entry selection of the year-proportional bar
  variant (`src/unnamed/part_004`, `snapToClosestEntry`);
* `build` — the entry-index builder of `src/time-disc.js` (`build`);
* `updatePositionPulse` / `updateIndicatorPulse` — the haptic-pulse logic of
  `updatePosition` (`src/time-disc.js`) and `updateIndicator`
  (`src/unnamed/part_004`);
* `scrollListenerStep` / `discScrollStep` — the throttled scroll listeners;
* `onEnd` — the release/cancel handler of the interpolating bar variant;
* `getScrollFromRotation` / `onDragMoveRotation` — the rotating-disc
  rotation clamp and rotation-to-scroll mapping (`src/unnamed/part_004`).

Pixel quantities are modelled as rationals, years as integers (the source
parses them with `parseInt`).  DOM geometry enters as explicit data: an
entry carries the `top` of its bounding rectangle when the element exists.
-/

namespace TimeSlices

/-- A navigable entry as built by the widget variants: the slice id, the
parsed year, the element's current top coordinate when
`document.querySelector` found the element (`none` otherwise), and the
`thread-hidden` class flag consulted by the interpolating variant. -/
structure Entry where
  id : Nat
  year : Int
  el : Option ℚ := none
  threadHidden : Bool := false
deriving DecidableEq, Repr

/-- The span fallback `maxYear - minYear || 1` used by every proportional
variant: a zero span is replaced by `1`, any other span is kept. -/
def yearSpanOf (minYear maxYear : Int) : Int :=
  if maxYear - minYear = 0 then 1 else maxYear - minYear

/-- `entries[0].year` with the source's `entries.length > 0 ? ... : 0` guard. -/
def minYearOf (ys : List Int) : Int := ys.headD 0

/-- `entries[entries.length - 1].year` with the source's `... : 1` guard. -/
def maxYearOf (ys : List Int) : Int := ys.getLastD 1

/-- Tick position of `render` in `src/unnamed/part_002`:
`padding + yearT * usableHeight` with `padding = 60`,
`usableHeight = h - padding * 2` and
`yearT = (year - minYear) / yearSpan`. -/
def render_tickY (h : ℚ) (minYear maxYear year : Int) : ℚ :=
  let padding : ℚ := 60
  let usableHeight : ℚ := h - padding * 2
  let yearT : ℚ := ((year - minYear : Int) : ℚ) / ((yearSpanOf minYear maxYear : Int) : ℚ)
  padding + yearT * usableHeight

/-- The fixed needle position of the bar variants: `centerY = h / 2`. -/
def render_centerY (h : ℚ) : ℚ := h / 2

/-- The `yearSpan` fallback never leaves a zero divisor. -/
theorem yearSpanOf_ne_zero (minYear maxYear : Int) : yearSpanOf minYear maxYear ≠ 0 := by
  unfold yearSpanOf
  split
  · exact one_ne_zero
  · assumption

/-- C1 counterexample: a zero-span collection (all entries in year 100, an
800-pixel viewport) is mapped to position 60 — the top padding — while the
control's center of travel, the fixed needle, sits at 400. -/
theorem zeroSpan_not_center_cex :
    render_tickY 800 100 100 100 = 60 ∧ render_centerY 800 = 400 ∧
      render_tickY 800 100 100 100 ≠ render_centerY 800 := by
  refine ⟨?_, ?_, ?_⟩ <;> norm_num [render_tickY, render_centerY, yearSpanOf]

/-- C1 (amended): for a collection whose entries all share one `timeValue`
(a single entry included), the span falls back to `1`, so the proportional
mapping divides by a nonzero quantity, and every entry is mapped to one and
the same control position — the top padding offset `60`, not the center of
travel. -/
theorem zeroSpan_uniform (h : ℚ) (ys : List Int) (v : Int)
    (hne : ys ≠ []) (hall : ∀ y ∈ ys, y = v) :
    ((yearSpanOf (minYearOf ys) (maxYearOf ys) : Int) : ℚ) ≠ 0 ∧
      ∀ y ∈ ys, render_tickY h (minYearOf ys) (maxYearOf ys) y = 60 := by
  have hhead : minYearOf ys = v := by
    match ys, hne with
    | y :: tl, _ => exact hall y (List.mem_cons_self y tl)
  have hlast : maxYearOf ys = v := by
    match ys, hne with
    | y :: tl, _ =>
      have hmem : (y :: tl).getLastD 1 ∈ y :: tl := by
        rw [List.getLastD_cons]
        exact List.getLastD_mem_cons tl y
      exact hall _ hmem
  have hspan : yearSpanOf (minYearOf ys) (maxYearOf ys) = 1 := by
    rw [hhead, hlast]
    simp [yearSpanOf]
  constructor
  · rw [hspan]; norm_num
  · intro y hy
    have hyv : y = v := hall y hy
    simp only [render_tickY]
    rw [hspan, hhead, hyv]
    norm_num

/-- C1 witness: two entries both in year 100 on a 900-pixel viewport both
land at position 60, and the divisor is nonzero. -/
theorem zeroSpan_uniform_witness :
    ((yearSpanOf (minYearOf [100, 100]) (maxYearOf [100, 100]) : Int) : ℚ) ≠ 0 ∧
      ∀ y ∈ [(100 : Int), 100], render_tickY 900 (minYearOf [100, 100]) (maxYearOf [100, 100]) y = 60 :=
  zeroSpan_uniform 900 [100, 100] 100 (by decide) (by decide)

/-- The fixed reference point of the interpolating variant: entry tops snap
to `HEADER_OFFSET = 100`. -/
def HEADER_OFFSET : ℚ := 100

/-- The result of `getCurrentPosition`: a (possibly blended) year and the
entry chosen for highlighting. -/
structure Position where
  year : ℚ
  entry : Entry
deriving DecidableEq, Repr

/-- The scan loop of `getCurrentPosition` in `src/time-disc.js`: walk the
entries in array order, skipping entries without an element and entries
carrying the `thread-hidden` class; an entry whose top is at or above the
reference point becomes the running `before`; the first entry whose top is
below it becomes `after` and the loop breaks. -/
def scanBrackets (refY : ℚ) : List Entry → Option (Entry × ℚ) → Option (Entry × ℚ) × Option (Entry × ℚ)
  | [], before => (before, none)
  | e :: rest, before =>
    match e.el with
    | none => scanBrackets refY rest before
    | some elTop =>
      if e.threadHidden then scanBrackets refY rest before
      else if elTop ≤ refY then scanBrackets refY rest (some (e, elTop))
      else (before, some (e, elTop))

/-- The clamped fractional blend of `getCurrentPosition`:
`Math.max(0, Math.min(1, (refY - before.y) / (after.y - before.y)))`. -/
def blendT (refY byv ayv : ℚ) : ℚ :=
  max 0 (min 1 ((refY - byv) / (ayv - byv)))

/-- `getCurrentPosition` of the third variant in `src/time-disc.js`: resolve
the current position at the fixed reference point, clamping to the first or
last entry when only one bracket exists, falling back to `entries[0]` when
no bracket exists, returning `null` on an empty view, and otherwise
interpolating the year between the two brackets. -/
def getCurrentPosition (entries : List Entry) : Option Position :=
  let refY := HEADER_OFFSET
  match scanBrackets refY entries none with
  | (none, some a) => some ⟨(a.1.year : ℚ), a.1⟩
  | (some b, none) => some ⟨(b.1.year : ℚ), b.1⟩
  | (none, none) =>
    match entries with
    | [] => none
    | e0 :: _ => some ⟨(e0.year : ℚ), e0⟩
  | (some b, some a) =>
    let t := blendT refY b.2 a.2
    let year := (b.1.year : ℚ) + t * ((a.1.year : ℚ) - (b.1.year : ℚ))
    let closest := if t < 1 / 2 then b.1 else a.1
    some ⟨year, closest⟩

/-- Geometry predicate: the entry has an element whose top lies strictly
below the reference point on the page (the entry starts after it). -/
def isAfterRef (refY : ℚ) (e : Entry) : Bool :=
  match e.el with
  | none => false
  | some t => refY < t

/-- Geometry predicate: the entry has an element whose top lies at or above
the reference point. -/
def isBeforeRef (refY : ℚ) (e : Entry) : Bool :=
  match e.el with
  | none => false
  | some t => t ≤ refY

/-- When every entry is visible and starts at or above the reference point,
the scan ends with the last entry as the sole bracket. -/
theorem scanBrackets_all_before (refY : ℚ) :
    ∀ (rest : List Entry) (e0 : Entry) (b : Option (Entry × ℚ)),
      (∀ e ∈ e0 :: rest, e.threadHidden = false ∧ isBeforeRef refY e = true) →
      ∃ t, (rest.getLastD e0).el = some t ∧
        scanBrackets refY (e0 :: rest) b = (some (rest.getLastD e0, t), none) := by
  intro rest
  induction rest with
  | nil =>
    intro e0 b hall
    obtain ⟨hh, hb⟩ := hall e0 (List.mem_cons_self e0 [])
    unfold isBeforeRef at hb
    cases hel : e0.el with
    | none => rw [hel] at hb; simp at hb
    | some t0 =>
      rw [hel] at hb
      have ht0 : t0 ≤ refY := by simpa using hb
      refine ⟨t0, hel, ?_⟩
      simp [scanBrackets, hel, hh, ht0]
  | cons e1 rs ih =>
    intro e0 b hall
    obtain ⟨hh, hb⟩ := hall e0 (List.mem_cons_self e0 (e1 :: rs))
    unfold isBeforeRef at hb
    cases hel : e0.el with
    | none => rw [hel] at hb; simp at hb
    | some t0 =>
      rw [hel] at hb
      have ht0 : t0 ≤ refY := by simpa using hb
      have hall' : ∀ e ∈ e1 :: rs, e.threadHidden = false ∧ isBeforeRef refY e = true := by
        intro e he
        exact hall e (List.mem_cons_of_mem e0 he)
      obtain ⟨t, htel, hres⟩ := ih e1 (some (e0, t0)) hall'
      refine ⟨t, ?_, ?_⟩
      · rw [List.getLastD_cons]
        exact htel
      · rw [show scanBrackets refY (e0 :: e1 :: rs) b = scanBrackets refY (e1 :: rs) (some (e0, t0)) by
          simp [scanBrackets, hel, hh, ht0]]
        rw [List.getLastD_cons]
        exact hres

/-- C2: boundary behavior of the resolver.  On an empty view it returns
`null` without throwing; when every entry is visible and starts strictly
below the reference point it clamps to the first entry; when every entry is
visible and starts at or above the reference point it clamps to the last
entry. -/
theorem resolver_boundary :
    (getCurrentPosition [] = none) ∧
    (∀ (e0 : Entry) (rest : List Entry),
      (∀ e ∈ e0 :: rest, e.threadHidden = false ∧ isAfterRef HEADER_OFFSET e = true) →
      getCurrentPosition (e0 :: rest) = some ⟨(e0.year : ℚ), e0⟩) ∧
    (∀ (e0 : Entry) (rest : List Entry),
      (∀ e ∈ e0 :: rest, e.threadHidden = false ∧ isBeforeRef HEADER_OFFSET e = true) →
      getCurrentPosition (e0 :: rest) =
        some ⟨((rest.getLastD e0).year : ℚ), rest.getLastD e0⟩) := by
  refine ⟨rfl, ?_, ?_⟩
  · intro e0 rest hall
    obtain ⟨hh, ha⟩ := hall e0 (List.mem_cons_self e0 rest)
    unfold isAfterRef at ha
    cases hel : e0.el with
    | none => rw [hel] at ha; simp at ha
    | some t0 =>
      rw [hel] at ha
      have ht0 : HEADER_OFFSET < t0 := by simpa using ha
      have hscan : scanBrackets HEADER_OFFSET (e0 :: rest) none = (none, some (e0, t0)) := by
        simp [scanBrackets, hel, hh, not_le.mpr ht0]
      simp [getCurrentPosition, hscan]
  · intro e0 rest hall
    obtain ⟨t, _, hscan⟩ := scanBrackets_all_before HEADER_OFFSET rest e0 none hall
    simp [getCurrentPosition, hscan]

/-- C2 witness: with both entries starting below the reference point the
resolver clamps to the first entry, and with both above it clamps to the
last. -/
theorem resolver_boundary_witness :
    getCurrentPosition [⟨0, 762, some 200, false⟩, ⟨1, 1504, some 900, false⟩] =
      some ⟨(762 : ℚ), ⟨0, 762, some 200, false⟩⟩ ∧
    getCurrentPosition [⟨0, 762, some 10, false⟩, ⟨1, 1504, some 50, false⟩] =
      some ⟨(1504 : ℚ), ⟨1, 1504, some 50, false⟩⟩ :=
  ⟨resolver_boundary.2.1 ⟨0, 762, some 200, false⟩ [⟨1, 1504, some 900, false⟩] (by decide),
    resolver_boundary.2.2 ⟨0, 762, some 10, false⟩ [⟨1, 1504, some 50, false⟩] (by decide)⟩

/-- C8: whenever the scan finds two bracketing entries, the clamped blend
lies in the unit interval and the blended year returned by the resolver
lies between the two bracketing years, inclusive. -/
theorem interpolation_bounds (entries : List Entry) (b a : Entry) (byv ayv : ℚ)
    (hscan : scanBrackets HEADER_OFFSET entries none = (some (b, byv), some (a, ayv))) :
    0 ≤ blendT HEADER_OFFSET byv ayv ∧ blendT HEADER_OFFSET byv ayv ≤ 1 ∧
      ∃ p, getCurrentPosition entries = some p ∧
        min (b.year : ℚ) (a.year : ℚ) ≤ p.year ∧ p.year ≤ max (b.year : ℚ) (a.year : ℚ) := by
  set t := blendT HEADER_OFFSET byv ayv with ht
  have ht0 : 0 ≤ t := le_max_left 0 _
  have ht1 : t ≤ 1 := by
    rw [ht]
    unfold blendT
    exact max_le zero_le_one (min_le_left 1 _)
  refine ⟨ht0, ht1, ⟨(b.year : ℚ) + t * ((a.year : ℚ) - (b.year : ℚ)), if t < 1 / 2 then b else a⟩, ?_, ?_, ?_⟩
  · simp only [getCurrentPosition, hscan]
  · rcases le_total (b.year : ℚ) (a.year : ℚ) with hba | hab
    · rw [min_eq_left hba]; nlinarith
    · rw [min_eq_right hab]; nlinarith
  · rcases le_total (b.year : ℚ) (a.year : ℚ) with hba | hab
    · rw [max_eq_right hba]; nlinarith
    · rw [max_eq_left hab]; nlinarith

/-- C8 witness: a reference point of 100 between entry tops 50 and 900
yields a blend in the unit interval and a year between 762 and 1504. -/
theorem interpolation_bounds_witness :
    0 ≤ blendT HEADER_OFFSET 50 900 ∧ blendT HEADER_OFFSET 50 900 ≤ 1 ∧
      ∃ p, getCurrentPosition [⟨0, 762, some 50, false⟩, ⟨1, 1504, some 900, false⟩] = some p ∧
        min ((762 : Int) : ℚ) ((1504 : Int) : ℚ) ≤ p.year ∧
          p.year ≤ max ((762 : Int) : ℚ) ((1504 : Int) : ℚ) :=
  interpolation_bounds [⟨0, 762, some 50, false⟩, ⟨1, 1504, some 900, false⟩]
    ⟨0, 762, some 50, false⟩ ⟨1, 1504, some 900, false⟩ 50 900 (by decide)

/-- The entry-list minimum year as the source computes it:
`entries[0].year` (guarded by a nonempty check). -/
def entriesMinYear (entries : List Entry) : Int :=
  ((entries.head?).map Entry.year).getD 0

/-- The entry-list maximum year as the source computes it:
`entries[entries.length - 1].year` (guarded by a nonempty check). -/
def entriesMaxYear (entries : List Entry) : Int :=
  ((entries.getLast?).map Entry.year).getD 0

/-- The control position of an entry year in the year-proportional bar
variant of `src/unnamed/part_004`:
`tickY = trackOffset + yearRatio * trackHeight` with
`yearRatio = (year - minYear) / yearSpan`. -/
def tickY (trackOffset trackHeight : ℚ) (minYear yearSpan : Int) (year : Int) : ℚ :=
  trackOffset + ((year - minYear : Int) : ℚ) / ((yearSpan : Int) : ℚ) * trackHeight

/-- The distance of an entry's tick from the queried control position, with
`minYear` and `yearSpan` computed from the entry list as in the source. -/
def snapDist (entries : List Entry) (trackOffset trackHeight centerY : ℚ) (e : Entry) : ℚ :=
  |tickY trackOffset trackHeight (entriesMinYear entries)
      (yearSpanOf (entriesMinYear entries) (entriesMaxYear entries)) e.year - centerY|

/-- The strict-minimum fold of `snapToClosestEntry`: starting from
`closestDist = Infinity`, keep the running closest and replace it only on a
strictly smaller distance. -/
def closestFold (d : Entry → ℚ) (l : List Entry) (acc : Option (Entry × ℚ)) : Option (Entry × ℚ) :=
  l.foldl (fun acc e =>
    let dd := d e
    match acc with
    | none => some (e, dd)
    | some (c, dc) => if dd < dc then some (e, dd) else some (c, dc)) acc

/-- `snapToClosestEntry` of the year-proportional bar variant in
`src/unnamed/part_004` (selection part): on a nonempty entry list, return
the entry whose tick is closest to the queried position, earliest wins on a
tie; on an empty list the function returns without selecting. -/
def snapSelect (entries : List Entry) (trackOffset trackHeight centerY : ℚ) : Option Entry :=
  if entries.isEmpty then none
  else (closestFold (snapDist entries trackOffset trackHeight centerY) entries none).map Prod.fst

/-- The fold returns the first argmin of the distance over the start
followed by the list: the result is minimal, and every element before its
selected occurrence is strictly farther. -/
theorem closestFold_first_argmin (d : Entry → ℚ) :
    ∀ (l : List Entry) (c : Entry),
      ∃ r l1 l2, closestFold d l (some (c, d c)) = some (r, d r) ∧
        c :: l = l1 ++ r :: l2 ∧
        (∀ x ∈ l1, d r < d x) ∧
        (∀ x ∈ c :: l, d r ≤ d x) := by
  intro l
  induction l with
  | nil =>
    intro c
    refine ⟨c, [], [], rfl, rfl, ?_, ?_⟩
    · intro x hx
      simp at hx
    · intro x hx
      have hxc : x = c := by simpa using hx
      rw [hxc]
  | cons e rs ih =>
    intro c
    by_cases hlt : d e < d c
    · have hstep : closestFold d (e :: rs) (some (c, d c)) = closestFold d rs (some (e, d e)) := by
        simp [closestFold, List.foldl_cons, hlt]
      obtain ⟨r, l1, l2, hr, hsplit, hbefore, hmin⟩ := ih e
      have hre : d r ≤ d e := hmin e (List.mem_cons_self e rs)
      have hrc : d r < d c := lt_of_le_of_lt hre hlt
      refine ⟨r, c :: l1, l2, hstep ▸ hr, ?_, ?_, ?_⟩
      · rw [List.cons_append, ← hsplit]
      · intro x hx
        rcases List.mem_cons.mp hx with h | h
        · rw [h]
          exact hrc
        · exact hbefore x h
      · intro x hx
        rcases List.mem_cons.mp hx with h | h
        · rw [h]
          exact le_of_lt hrc
        · exact hmin x h
    · have hce : d c ≤ d e := not_lt.mp hlt
      have hstep : closestFold d (e :: rs) (some (c, d c)) = closestFold d rs (some (c, d c)) := by
        simp [closestFold, List.foldl_cons, hlt]
      obtain ⟨r, l1, l2, hr, hsplit, hbefore, hmin⟩ := ih c
      cases l1 with
      | nil =>
        rw [List.nil_append] at hsplit
        injection hsplit with hc hl
        refine ⟨r, [], e :: rs, hstep ▸ hr, by rw [List.nil_append, hc], ?_, ?_⟩
        · intro x hx
          simp at hx
        · intro x hx
          rcases List.mem_cons.mp hx with h | h
          · rw [h, hc]
          · rcases List.mem_cons.mp h with h2 | h2
            · rw [h2]
              exact hc ▸ hce
            · exact hmin x (List.mem_cons_of_mem c h2)
      | cons a l1t =>
        rw [List.cons_append] at hsplit
        injection hsplit with hc hl
        subst hc
        have hac : d r < d c := hbefore c (List.mem_cons_self c l1t)
        refine ⟨r, c :: e :: l1t, l2, hstep ▸ hr, ?_, ?_, ?_⟩
        · rw [List.cons_append, List.cons_append, ← hl]
        · intro x hx
          rcases List.mem_cons.mp hx with h | h
          · rw [h]
            exact hac
          · rcases List.mem_cons.mp h with h2 | h2
            · rw [h2]
              exact lt_of_lt_of_le hac hce
            · exact hbefore x (List.mem_cons_of_mem c h2)
        · intro x hx
          rcases List.mem_cons.mp hx with h | h
          · rw [h]
            exact le_of_lt hac
          · rcases List.mem_cons.mp h with h2 | h2
            · rw [h2]
              exact le_of_lt (lt_of_lt_of_le hac hce)
            · exact hmin x (List.mem_cons_of_mem c h2)

/-- The fold always yields an entry of minimal distance: the result is the
start or a member of the list, and its distance is a lower bound. -/
theorem closestFold_min (d : Entry → ℚ) :
    ∀ (l : List Entry) (c : Entry),
      ∃ r, closestFold d l (some (c, d c)) = some (r, d r) ∧ (r = c ∨ r ∈ l) ∧
        d r ≤ d c ∧ ∀ x ∈ l, d r ≤ d x := by
  intro l
  induction l with
  | nil => intro c; exact ⟨c, rfl, Or.inl rfl, le_refl _, by simp⟩
  | cons e rs ih =>
    intro c
    by_cases hlt : d e < d c
    · have hstep : closestFold d (e :: rs) (some (c, d c)) = closestFold d rs (some (e, d e)) := by
        simp [closestFold, List.foldl_cons, hlt]
      obtain ⟨r, hr, hmem, hle, hall⟩ := ih e
      refine ⟨r, hstep ▸ hr, ?_, le_trans hle (le_of_lt hlt), ?_⟩
      · rcases hmem with h | h
        · exact Or.inr (h ▸ List.mem_cons_self e rs)
        · exact Or.inr (List.mem_cons_of_mem e h)
      · intro x hx
        rcases List.mem_cons.mp hx with h | h
        · exact h ▸ hle
        · exact hall x h
    · have hstep : closestFold d (e :: rs) (some (c, d c)) = closestFold d rs (some (c, d c)) := by
        simp [closestFold, List.foldl_cons, hlt]
      obtain ⟨r, hr, hmem, hle, hall⟩ := ih c
      refine ⟨r, hstep ▸ hr, hmem.imp id (List.mem_cons_of_mem e), hle, ?_⟩
      intro x hx
      rcases List.mem_cons.mp hx with h | h
      · exact h ▸ le_trans hle (not_lt.mp hlt)
      · exact hall x h

/-- Distinct years give distinct ticks: the proportional map is injective in
the year whenever the track height is nonzero (the span fallback is never
zero). -/
theorem tickY_inj (trackOffset trackHeight : ℚ) (minYear yearSpan : Int)
    (hspan : yearSpan ≠ 0) (hH : trackHeight ≠ 0) (y1 y2 : Int)
    (heq : tickY trackOffset trackHeight minYear yearSpan y1 =
      tickY trackOffset trackHeight minYear yearSpan y2) : y1 = y2 := by
  unfold tickY at heq
  have hsq : ((yearSpan : Int) : ℚ) ≠ 0 := Int.cast_ne_zero.mpr hspan
  field_simp at heq
  rcases heq with h | h
  · exact_mod_cast h
  · exact absurd h hH

/-- Membership with a shared year forces equality in a list whose years are
pairwise distinct. -/
theorem eq_of_mem_year_eq :
    ∀ (l : List Entry), l.Pairwise (fun a b => a.year ≠ b.year) →
      ∀ e ∈ l, ∀ x ∈ l, x.year = e.year → x = e := by
  intro l
  induction l with
  | nil => intro _ e he; simp at he
  | cons a tl ih =>
    intro hp e he x hx hyx
    obtain ⟨hhead, htl⟩ := List.pairwise_cons.mp hp
    rcases List.mem_cons.mp he with he1 | he2 <;> rcases List.mem_cons.mp hx with hx1 | hx2
    · rw [he1, hx1]
    · subst he1
      exact absurd hyx.symm (hhead x hx2)
    · subst hx1
      exact absurd hyx (hhead e he2)
    · exact ih htl e he2 x hx2 hyx

/-- When exactly one entry sits at distance zero from the queried position,
the fold selects it. -/
theorem snapSelect_unique_min (entries : List Entry) (trackOffset trackHeight centerY : ℚ)
    (e : Entry) (he : e ∈ entries)
    (hzero : snapDist entries trackOffset trackHeight centerY e = 0)
    (huniq : ∀ x ∈ entries, snapDist entries trackOffset trackHeight centerY x = 0 → x = e) :
    snapSelect entries trackOffset trackHeight centerY = some e := by
  match entries, he with
  | e0 :: rest, he =>
    set d := snapDist (e0 :: rest) trackOffset trackHeight centerY with hd
    have hfold : closestFold d (e0 :: rest) none = closestFold d rest (some (e0, d e0)) := by
      simp [closestFold, List.foldl_cons]
    obtain ⟨r, hr, hrmem, hre0, hall⟩ := closestFold_min d rest e0
    have hrmem' : r ∈ e0 :: rest := by
      rcases hrmem with h | h
      · exact h ▸ List.mem_cons_self e0 rest
      · exact List.mem_cons_of_mem e0 h
    have hrle : d r ≤ d e := by
      rcases List.mem_cons.mp he with h | h
      · rw [h]; exact hre0
      · exact hall e h
    have hrnonneg : 0 ≤ d r := by
      rw [hd]; unfold snapDist; exact abs_nonneg _
    have hr0 : d r = 0 := le_antisymm (hzero ▸ hrle) hrnonneg
    have hre : r = e := huniq r hrmem' hr0
    have hsel : snapSelect (e0 :: rest) trackOffset trackHeight centerY =
        (closestFold d (e0 :: rest) none).map Prod.fst := by
      rw [hd]
      rfl
    rw [hsel, hfold, hr, hre]
    rfl

/-- C3 counterexample: two entries share year 100; the control position of
the second entry queries back to the first (earliest wins on the tie), so
the exact round-trip of the claim fails. -/
theorem snap_roundTrip_cex :
    snapSelect [⟨0, 100, none, false⟩, ⟨1, 100, none, false⟩] 0 100
        (tickY 0 100 100 1 100) =
      some ⟨0, 100, none, false⟩ ∧
      (⟨0, 100, none, false⟩ : Entry) ≠ ⟨1, 100, none, false⟩ := by
  constructor
  · norm_num [snapSelect, snapDist, closestFold, tickY, entriesMinYear, entriesMaxYear,
      yearSpanOf, List.foldl]
  · decide

/-- C3 (amended): the round-trip holds exactly on views whose entries have
pairwise distinct `timeValue`s and a nonzero track height; on every
nonempty view and every queried control position the selected entry is at
minimal distance and every entry preceding it in array order is strictly
farther — so whenever several entries are at equal distance from the query,
the earliest of them in array order wins (equal control distance already
means equal time distance, since the tick map is affine in the year). -/
theorem snap_roundTrip :
    (∀ (entries : List Entry) (trackOffset trackHeight : ℚ) (e : Entry),
      e ∈ entries →
      entries.Pairwise (fun a b => a.year ≠ b.year) →
      trackHeight ≠ 0 →
      snapSelect entries trackOffset trackHeight
          (tickY trackOffset trackHeight (entriesMinYear entries)
            (yearSpanOf (entriesMinYear entries) (entriesMaxYear entries)) e.year) =
        some e) ∧
    (∀ (e0 : Entry) (rest : List Entry) (trackOffset trackHeight centerY : ℚ),
      ∃ r l1 l2,
        snapSelect (e0 :: rest) trackOffset trackHeight centerY = some r ∧
        e0 :: rest = l1 ++ r :: l2 ∧
        (∀ x ∈ l1, snapDist (e0 :: rest) trackOffset trackHeight centerY r <
          snapDist (e0 :: rest) trackOffset trackHeight centerY x) ∧
        (∀ x ∈ e0 :: rest, snapDist (e0 :: rest) trackOffset trackHeight centerY r ≤
          snapDist (e0 :: rest) trackOffset trackHeight centerY x)) := by
  constructor
  · intro entries trackOffset trackHeight e hmem hdist hH
    apply snapSelect_unique_min entries trackOffset trackHeight _ e hmem
    · unfold snapDist
      simp
    · intro x hx h0
      unfold snapDist at h0
      have htick := sub_eq_zero.mp (abs_eq_zero.mp h0)
      have hyy := tickY_inj trackOffset trackHeight _ _ (yearSpanOf_ne_zero _ _) hH
        x.year e.year htick
      exact eq_of_mem_year_eq entries hdist e hmem x hx hyy
  · intro e0 rest trackOffset trackHeight centerY
    set d := snapDist (e0 :: rest) trackOffset trackHeight centerY with hd
    have hfold : closestFold d (e0 :: rest) none = closestFold d rest (some (e0, d e0)) := by
      simp [closestFold, List.foldl_cons]
    have hsel : snapSelect (e0 :: rest) trackOffset trackHeight centerY =
        (closestFold d (e0 :: rest) none).map Prod.fst := by
      rw [hd]
      rfl
    obtain ⟨r, l1, l2, hr, hsplit, hbefore, hmin⟩ := closestFold_first_argmin d rest e0
    refine ⟨r, l1, l2, ?_, hsplit, hbefore, hmin⟩
    rw [hsel, hfold, hr]
    rfl

/-- C3 witness: on the scenario years 762, 1504, 1889, 1922 the entry for
1504 is recovered exactly from its own control position; and on a view with
a genuine tie — entries in years 0, 100, 100 whose last two ticks coincide,
queried at their shared position — the first-argmin characterization
applies, and direct evaluation shows the earlier of the two tied entries
(array index 1, not index 2) is selected. -/
theorem snap_roundTrip_witness :
    snapSelect [⟨0, 762, none, false⟩, ⟨1, 1504, none, false⟩, ⟨2, 1889, none, false⟩,
        ⟨3, 1922, none, false⟩] 0 100
      (tickY 0 100
        (entriesMinYear [⟨0, 762, none, false⟩, ⟨1, 1504, none, false⟩, ⟨2, 1889, none, false⟩,
          ⟨3, 1922, none, false⟩])
        (yearSpanOf
          (entriesMinYear [⟨0, 762, none, false⟩, ⟨1, 1504, none, false⟩, ⟨2, 1889, none, false⟩,
            ⟨3, 1922, none, false⟩])
          (entriesMaxYear [⟨0, 762, none, false⟩, ⟨1, 1504, none, false⟩, ⟨2, 1889, none, false⟩,
            ⟨3, 1922, none, false⟩]))
        1504) = some ⟨1, 1504, none, false⟩ ∧
    (∃ r l1 l2,
      snapSelect [⟨0, 0, none, false⟩, ⟨1, 100, none, false⟩, ⟨2, 100, none, false⟩]
          0 100 100 = some r ∧
      ([⟨0, 0, none, false⟩, ⟨1, 100, none, false⟩, ⟨2, 100, none, false⟩] : List Entry) =
        l1 ++ r :: l2 ∧
      (∀ x ∈ l1, snapDist [⟨0, 0, none, false⟩, ⟨1, 100, none, false⟩, ⟨2, 100, none, false⟩]
          0 100 100 r <
        snapDist [⟨0, 0, none, false⟩, ⟨1, 100, none, false⟩, ⟨2, 100, none, false⟩]
          0 100 100 x) ∧
      (∀ x ∈ ([⟨0, 0, none, false⟩, ⟨1, 100, none, false⟩, ⟨2, 100, none, false⟩] : List Entry),
        snapDist [⟨0, 0, none, false⟩, ⟨1, 100, none, false⟩, ⟨2, 100, none, false⟩]
          0 100 100 r ≤
          snapDist [⟨0, 0, none, false⟩, ⟨1, 100, none, false⟩, ⟨2, 100, none, false⟩]
            0 100 100 x)) ∧
    snapSelect [⟨0, 0, none, false⟩, ⟨1, 100, none, false⟩, ⟨2, 100, none, false⟩] 0 100 100 =
      some ⟨1, 100, none, false⟩ :=
  ⟨snap_roundTrip.1 _ 0 100 ⟨1, 1504, none, false⟩ (by decide) (by decide) (by norm_num),
    snap_roundTrip.2 ⟨0, 0, none, false⟩ [⟨1, 100, none, false⟩, ⟨2, 100, none, false⟩] 0 100 100,
    by norm_num [snapSelect, snapDist, closestFold, tickY, entriesMinYear, entriesMaxYear,
      yearSpanOf, List.foldl]⟩

/-- A raw slice of the externally supplied data set: an id, a year (parsed
with `parseInt` by the comparator), and its thread tags. -/
structure Slice where
  id : Nat
  year : Int
  threads : List Nat
deriving DecidableEq, Repr

/-- The active-thread filter applied by `build`:
`window.activeThread ? SLICES.filter(s => (s.threads || []).includes(window.activeThread)) : SLICES`. -/
def sliceFilter (activeThread : Option Nat) (slices : List Slice) : List Slice :=
  match activeThread with
  | none => slices
  | some th => slices.filter (fun s => s.threads.contains th)

/-- The ascending stable sort of `build`:
`[...slices].sort((a, b) => parseInt(a.year) - parseInt(b.year))` — the
ECMAScript sort is required to be stable, modelled by a stable merge sort
on the year order. -/
def sortSlices (slices : List Slice) : List Slice :=
  slices.mergeSort (fun a b => a.year ≤ b.year)

/-- `build` of the first variant in `src/time-disc.js`, as a transformer of
the widget's `entries` state: an empty data set returns early and leaves
the previous entries in place; otherwise the active-thread filter is
applied first, an empty filtered view clears the entries, and a nonempty
one is sorted ascending by year.  (The source then attaches the DOM element
of each slice; that step neither reorders nor drops entries.) -/
def build (prevEntries : List Slice) (allSlices : List Slice) (activeThread : Option Nat) :
    List Slice :=
  if allSlices.isEmpty then prevEntries
  else
    let slices := sliceFilter activeThread allSlices
    if slices.isEmpty then [] else sortSlices slices

/-- C4 counterexample: with a previously built entry list, a call on an
empty input collection returns early and keeps the stale entries, so the
output is not empty. -/
theorem build_empty_cex :
    build [⟨0, 5, []⟩] [] none = [⟨0, 5, []⟩] ∧ build [⟨0, 5, []⟩] [] none ≠ [] := by
  constructor
  · rfl
  · decide

/-- C4 (amended): an empty input collection leaves the previously built
sequence unchanged (empty only on a fresh widget); for a nonempty input the
predicate is applied first and the surviving slices are returned sorted
ascending by `timeValue` by a stable sort — the output is a permutation of
the filtered input and slices of equal year keep their original relative
order — with an empty filtered view yielding an empty output; the input
collection itself is never mutated (the source sorts a copy). -/
theorem build_spec (prevEntries allSlices : List Slice) (activeThread : Option Nat) :
    (allSlices = [] → build prevEntries allSlices activeThread = prevEntries) ∧
    (allSlices ≠ [] →
      (build prevEntries allSlices activeThread).Pairwise (fun a b => a.year ≤ b.year) ∧
      (build prevEntries allSlices activeThread).Perm (sliceFilter activeThread allSlices) ∧
      ∀ y : Int,
        (build prevEntries allSlices activeThread).filter (fun s => s.year = y) =
          (sliceFilter activeThread allSlices).filter (fun s => s.year = y)) := by
  constructor
  · intro h
    subst h
    rfl
  · intro hne
    have hemp : allSlices.isEmpty = false := by
      cases allSlices with
      | nil => exact absurd rfl hne
      | cons a l => rfl
    by_cases hf : (sliceFilter activeThread allSlices).isEmpty = true
    · have hfil : sliceFilter activeThread allSlices = [] := List.isEmpty_iff.mp hf
      have hb : build prevEntries allSlices activeThread = [] := by
        unfold build
        rw [hemp]
        simp [hf]
      rw [hb, hfil]
      exact ⟨List.Pairwise.nil, List.Perm.refl [], fun y => rfl⟩
    · have hb : build prevEntries allSlices activeThread =
          sortSlices (sliceFilter activeThread allSlices) := by
        unfold build
        rw [hemp]
        simp [hf]
      set l := sliceFilter activeThread allSlices with hl
      have htrans : ∀ a b c : Slice, decide (a.year ≤ b.year) = true →
          decide (b.year ≤ c.year) = true → decide (a.year ≤ c.year) = true := by
        intro a b c hab hbc
        simp only [decide_eq_true_eq] at *
        exact le_trans hab hbc
      have htotal : ∀ a b : Slice, (decide (a.year ≤ b.year) || decide (b.year ≤ a.year)) = true := by
        intro a b
        simp only [Bool.or_eq_true, decide_eq_true_eq]
        exact le_total a.year b.year
      refine ⟨?_, ?_, ?_⟩
      · rw [hb]
        have hs := @List.sorted_mergeSort Slice
          (fun a b : Slice => decide (a.year ≤ b.year)) htrans htotal l
        exact hs.imp (fun h => by simpa using h)
      · rw [hb]
        exact List.mergeSort_perm l _
      · intro y
        rw [hb]
        have hmemy : ∀ s ∈ l.filter (fun s => s.year = y), s.year = y := by
          intro s hs
          simpa using List.of_mem_filter hs
        have hpw : (l.filter (fun s => s.year = y)).Pairwise
            (fun a b : Slice => decide (a.year ≤ b.year) = true) := by
          apply List.pairwise_of_forall_mem_list
          intro a ha b hbm
          simp only [decide_eq_true_eq]
          rw [hmemy a ha, hmemy b hbm]
        have hsub1 : (l.filter (fun s => s.year = y)).Sublist (sortSlices l) :=
          List.sublist_mergeSort htrans htotal hpw (List.filter_sublist l)
        have hperm : ((sortSlices l).filter (fun s => s.year = y)).Perm
            (l.filter (fun s => s.year = y)) :=
          (List.mergeSort_perm l _).filter _
        have hsub2 : (l.filter (fun s => s.year = y)).Sublist
            ((sortSlices l).filter (fun s => s.year = y)) := by
          have h2 := List.Sublist.filter (fun s : Slice => decide (s.year = y)) hsub1
          rw [List.filter_filter] at h2
          have heq : List.filter (fun a : Slice => decide (a.year = y) && decide (a.year = y)) l =
              List.filter (fun s : Slice => decide (s.year = y)) l := by
            apply List.filter_congr
            intro s _
            exact Bool.and_self _
          rwa [heq] at h2
        exact (hsub2.eq_of_length hperm.length_eq.symm).symm

/-- C4 witness: a two-slice data set (years 10 and 3) builds to an
ascending sequence that is a permutation of the unfiltered input. -/
theorem build_spec_witness :
    (build [] [⟨0, 10, []⟩, ⟨1, 3, []⟩] none).Pairwise (fun a b => a.year ≤ b.year) ∧
      (build [] [⟨0, 10, []⟩, ⟨1, 3, []⟩] none).Perm
        (sliceFilter none [⟨0, 10, []⟩, ⟨1, 3, []⟩]) ∧
      build [⟨2, 7, []⟩] [] none = [⟨2, 7, []⟩] :=
  ⟨((build_spec [] [⟨0, 10, []⟩, ⟨1, 3, []⟩] none).2 (by decide)).1,
    ((build_spec [] [⟨0, 10, []⟩, ⟨1, 3, []⟩] none).2 (by decide)).2.1,
    (build_spec [⟨2, 7, []⟩] [] none).1 rfl⟩

/-- The haptic step of `updatePosition` in `src/time-disc.js`:
`if (pos.entry !== lastCurrentEntry) { navigator.vibrate(10); lastCurrentEntry = pos.entry; }`.
It returns whether a pulse is emitted and the updated `lastCurrentEntry`;
no mode flag is consulted by the source. -/
def updatePositionPulse (lastCurrentEntry : Option Entry) (posEntry : Entry) :
    Bool × Option Entry :=
  if some posEntry ≠ lastCurrentEntry then (true, some posEntry)
  else (false, lastCurrentEntry)

/-- The haptic step of `updateIndicator` in `src/unnamed/part_004`:
`if (discIsDragging && closest !== discLastNeedleEntry && navigator.vibrate) navigator.vibrate(10); discLastNeedleEntry = closest;`. -/
def updateIndicatorPulse (discIsDragging : Bool) (discLastNeedleEntry closest : Option Entry) :
    Bool × Option Entry :=
  (discIsDragging && decide (closest ≠ discLastNeedleEntry), closest)

/-- The ambient-scroll path of the interpolating variant: the scroll
listener runs `updatePosition` whenever the container is not hidden; the
dragging flag is passed through untouched because the source never reads it
on this path. -/
def ambientScrollPulse (hidden isDragging : Bool) (lastCurrentEntry : Option Entry)
    (posEntry : Entry) : Bool × Option Entry :=
  if hidden then (false, lastCurrentEntry)
  else updatePositionPulse lastCurrentEntry posEntry

/-- C5 counterexample: an ambient scroll while the widget is Idle
(`isDragging = false`, container visible) that changes the current entry
emits a haptic pulse in the interpolating variant, which the claim forbids. -/
theorem idle_pulse_cex :
    (ambientScrollPulse false false (some ⟨0, 762, none, false⟩) ⟨1, 1504, none, false⟩).1
      = true := by
  decide

/-- C5 (amended): a pulse fires exactly once per transition of the current
entry — `updatePosition` pulses precisely when the entry reference changes
and never twice for the same change — but only the rotating-disc variant
gates the pulse on dragging; the interpolating variant pulses on ambient
scroll-driven changes while Idle as well. -/
theorem pulse_per_transition :
    (∀ (l : Option Entry) (e : Entry),
      (updatePositionPulse l e).1 = decide (some e ≠ l)) ∧
    (∀ (l : Option Entry) (e : Entry),
      (updatePositionPulse (updatePositionPulse l e).2 e).1 = false) ∧
    (∀ (l c : Option Entry), (updateIndicatorPulse false l c).1 = false) ∧
    (∀ (l c : Option Entry), (updateIndicatorPulse true l c).1 = decide (c ≠ l)) := by
  refine ⟨?_, ?_, ?_, ?_⟩
  · intro l e
    unfold updatePositionPulse
    by_cases h : some e = l <;> simp [h]
  · intro l e
    unfold updatePositionPulse
    by_cases h : some e = l <;> simp [h]
  · intro l c
    simp [updateIndicatorPulse]
  · intro l c
    simp [updateIndicatorPulse]

/-- The side effects a widget step can perform. -/
inductive Effect where
  | render
  | applyRotation
  | updateIndicator
  | vibrate (ms : Nat)
  | scrollTo (top : ℚ)
  | scrollBy (delta : ℚ)
deriving DecidableEq, Repr

/-- One event seen by a throttled scroll listener: an ambient scroll event,
or the firing of the scheduled callback (a `requestAnimationFrame` callback
in the bar variants, a 16 ms timeout in the rotating-disc variant). -/
inductive SyncEvent where
  | scrollEvent
  | frameFire
deriving DecidableEq, Repr

/-- The scroll listener of the first variant in `src/time-disc.js`: a
scroll event schedules the callback unless one is pending; the callback
clears the pending flag and calls `render` when the container is not
hidden.  The listener consults only the pending timer and the hidden class;
the dragging flag is carried through untouched because the source never
reads it here. -/
def scrollListenerStep (hidden isDragging pending : Bool) :
    SyncEvent → Bool × List Effect
  | .scrollEvent => (true, [])
  | .frameFire =>
    if pending then (false, if hidden then [] else [.render]) else (false, [])

/-- Processing an event trace through the variant-one scroll listener,
collecting all emitted effects. -/
def runSync (hidden isDragging : Bool) : Bool → List SyncEvent → Bool × List Effect
  | pending, [] => (pending, [])
  | pending, ev :: evs =>
    let step := scrollListenerStep hidden isDragging pending ev
    let rest := runSync hidden isDragging step.1 evs
    (rest.1, step.2 ++ rest.2)

/-- The scroll listener of the rotating-disc variant
(`src/unnamed/part_004`): it returns immediately when scroll sync is
disabled or a drag is active; otherwise it schedules the 16 ms callback
unless one is pending.  The fired callback reads the rotation from the
scroll position, applies it and updates the indicator when the container is
not hidden. -/
def discScrollStep (syncEnabled isDragging hidden pending : Bool) :
    SyncEvent → Bool × List Effect
  | .scrollEvent =>
    if !syncEnabled || isDragging then (pending, [])
    else (true, [])
  | .frameFire =>
    if pending then (false, if hidden then [] else [.applyRotation, .updateIndicator])
    else (false, [])

/-- C6 counterexample: with a drag active (`isDragging = true`) the bar
variant's scroll listener still schedules and performs a render — the claim
says it must stay inert during an active drag. -/
theorem scrollSync_drag_cex :
    runSync false true false [SyncEvent.scrollEvent, SyncEvent.frameFire] =
      (false, [Effect.render]) := by
  decide

/-- C6 (amended): the bar variant's listener re-renders whenever the
container is not hidden — dragging included — while the rotating-disc
listener refuses to schedule during a drag; every variant renders at most
once per scheduled callback firing (renders happen only inside the
callback, never directly in the scroll event), and neither listener ever
writes the scroll position. -/
theorem scrollSync_props :
    (∀ hidden isDragging pending evs,
      ((runSync hidden isDragging pending evs).2.count Effect.render) ≤
        evs.count SyncEvent.frameFire) ∧
    (∀ hidden isDragging pending,
      (scrollListenerStep hidden isDragging pending SyncEvent.scrollEvent).2 = []) ∧
    (∀ hidden isDragging pending ev (q : ℚ),
      Effect.scrollTo q ∉ (scrollListenerStep hidden isDragging pending ev).2 ∧
      Effect.scrollBy q ∉ (scrollListenerStep hidden isDragging pending ev).2) ∧
    (∀ syncEnabled hidden pending,
      discScrollStep syncEnabled true hidden pending SyncEvent.scrollEvent = (pending, [])) ∧
    (∀ syncEnabled isDragging hidden pending ev (q : ℚ),
      Effect.scrollTo q ∉ (discScrollStep syncEnabled isDragging hidden pending ev).2 ∧
      Effect.scrollBy q ∉ (discScrollStep syncEnabled isDragging hidden pending ev).2) := by
  refine ⟨?_, ?_, ?_, ?_, ?_⟩
  · intro hidden isDragging pending evs
    induction evs generalizing pending with
    | nil => simp [runSync]
    | cons ev evs ih =>
      have hstep : ((scrollListenerStep hidden isDragging pending ev).2.count Effect.render) ≤
          (if ev = SyncEvent.frameFire then 1 else 0) := by
        cases ev with
        | scrollEvent => simp [scrollListenerStep]
        | frameFire =>
          by_cases hp : pending <;> by_cases hh : hidden <;>
            simp [scrollListenerStep, hp, hh, List.count_cons]
      calc ((runSync hidden isDragging pending (ev :: evs)).2.count Effect.render)
          = ((scrollListenerStep hidden isDragging pending ev).2.count Effect.render) +
            ((runSync hidden isDragging
              (scrollListenerStep hidden isDragging pending ev).1 evs).2.count Effect.render) := by
            simp [runSync, List.count_append]
        _ ≤ (if ev = SyncEvent.frameFire then 1 else 0) +
              evs.count SyncEvent.frameFire := Nat.add_le_add hstep (ih _)
        _ = (ev :: evs).count SyncEvent.frameFire := by
            cases ev <;> simp [List.count_cons, Nat.add_comm]
  · intro hidden isDragging pending
    rfl
  · intro hidden isDragging pending ev q
    cases ev with
    | scrollEvent => simp [scrollListenerStep]
    | frameFire =>
      by_cases hp : pending <;> by_cases hh : hidden <;>
        simp [scrollListenerStep, hp, hh]
  · intro syncEnabled hidden pending
    simp [discScrollStep]
  · intro syncEnabled isDragging hidden pending ev q
    cases ev with
    | scrollEvent =>
      by_cases hs : (!syncEnabled || isDragging) = true <;> simp [discScrollStep, hs]
    | frameFire =>
      by_cases hp : pending <;> by_cases hh : hidden <;>
        simp [discScrollStep, hp, hh]

/-- `onEnd` of the third variant in `src/time-disc.js`, wired to `mouseup`,
`touchend` and `touchcancel`: if no drag is active it does nothing; else it
clears the dragging flag, resolves the current position, and when the
resolved entry has an element it scrolls its top to the header offset (a
smooth relative `scrollBy`) and vibrates.  The variant keeps no drag-start
scroll offset, so no restore of a saved position exists. -/
def onEnd (isDragging : Bool) (entries : List Entry) : Bool × List Effect :=
  if !isDragging then (isDragging, [])
  else
    match getCurrentPosition entries with
    | some pos =>
      match pos.entry.el with
      | some top => (false, [.scrollBy (top - HEADER_OFFSET), .vibrate 10])
      | none => (false, [])
    | none => (false, [])

/-- C9 counterexample: a touch-cancel mid-drag (one resolvable entry with
top 500) runs `onEnd`, which performs a snap: a smooth scroll write of 400
pixels and a haptic pulse — the claim says no snap and no further scroll
write may happen. -/
theorem touchcancel_snap_cex :
    onEnd true [⟨0, 762, some 500, false⟩] =
      (false, [Effect.scrollBy 400, Effect.vibrate 10]) := by
  have hscan : scanBrackets HEADER_OFFSET [⟨0, 762, some 500, false⟩] none =
      (none, some (⟨0, 762, some 500, false⟩, 500)) := by
    norm_num [scanBrackets, HEADER_OFFSET]
  have hpos : getCurrentPosition [⟨0, 762, some 500, false⟩] =
      some ⟨(762 : ℚ), ⟨0, 762, some 500, false⟩⟩ := by
    simp [getCurrentPosition, hscan]
  norm_num [onEnd, hpos, HEADER_OFFSET]

/-- When no entry has an element, the scan leaves the brackets empty. -/
theorem scanBrackets_no_el (refY : ℚ) :
    ∀ (l : List Entry) (b : Option (Entry × ℚ)),
      (∀ e ∈ l, e.el = none) → scanBrackets refY l b = (b, none) := by
  intro l
  induction l with
  | nil => intro b _; rfl
  | cons e rest ih =>
    intro b hall
    have he : e.el = none := hall e (List.mem_cons_self e rest)
    have hrest : ∀ x ∈ rest, x.el = none := fun x hx => hall x (List.mem_cons_of_mem e hx)
    simp [scanBrackets, he, ih b hrest]

/-- C9 (amended): a touch-cancel mid-drag behaves exactly like a release in
the interpolating variant: the controller always leaves the dragging state,
it performs the release snap (a relative smooth scroll) rather than
suppressing it, it never issues an absolute scroll restore — so the drag's
applied scrolling is never rolled back — and when no entry geometry is
available it transitions with no scroll write at all. -/
theorem touchcancel_props :
    (∀ entries, (onEnd true entries).1 = false) ∧
    (∀ entries (q : ℚ), Effect.scrollTo q ∉ (onEnd true entries).2) ∧
    (∀ entries, (∀ e ∈ entries, e.el = none) → (onEnd true entries).2 = []) := by
  refine ⟨?_, ?_, ?_⟩
  · intro entries
    unfold onEnd
    cases hpos : getCurrentPosition entries with
    | none => simp [hpos]
    | some pos => cases hel : pos.entry.el <;> simp [hpos, hel]
  · intro entries q
    unfold onEnd
    cases hpos : getCurrentPosition entries with
    | none => simp [hpos]
    | some pos => cases hel : pos.entry.el <;> simp [hpos, hel]
  · intro entries hall
    have hscan := scanBrackets_no_el HEADER_OFFSET entries none hall
    unfold onEnd
    cases entries with
    | nil => simp [getCurrentPosition, hscan]
    | cons e0 rest =>
      have he0 : e0.el = none := hall e0 (List.mem_cons_self e0 rest)
      simp [getCurrentPosition, hscan, he0]

/-- C9 witness: with a single element-less entry the cancel transition
performs no effect at all. -/
theorem touchcancel_props_witness :
    (onEnd true [⟨0, 762, none, false⟩]).2 = [] :=
  touchcancel_props.2.2 [⟨0, 762, none, false⟩] (by decide)

/-- `getScrollFromRotation` of the rotating-disc variant
(`src/unnamed/part_004`):
`(Math.max(0, Math.min(180, rotation)) / 180) * maxScroll`. -/
def getScrollFromRotation (maxScroll rotation : ℚ) : ℚ :=
  max 0 (min 180 rotation) / 180 * maxScroll

/-- The rotation update of `onDragMove` in the rotating-disc variant:
`discRotation = Math.max(0, Math.min(180, discDragStartRotation + (deltaY / 400) * 180))`. -/
def onDragMoveRotation (discDragStartRotation deltaY : ℚ) : ℚ :=
  max 0 (min 180 (discDragStartRotation + deltaY / 400 * 180))

/-- C10: every drag-move update leaves the disc rotation inside [0, 180]
degrees, and for a scrollable document (`0 ≤ maxScroll`) the scroll offset
computed from any rotation lies inside [0, maxScroll]. -/
theorem disc_clamp_props :
    (∀ startRotation deltaY : ℚ,
      0 ≤ onDragMoveRotation startRotation deltaY ∧
        onDragMoveRotation startRotation deltaY ≤ 180) ∧
    (∀ maxScroll rotation : ℚ, 0 ≤ maxScroll →
      0 ≤ getScrollFromRotation maxScroll rotation ∧
        getScrollFromRotation maxScroll rotation ≤ maxScroll) := by
  constructor
  · intro s d
    unfold onDragMoveRotation
    constructor
    · exact le_max_left 0 _
    · exact max_le (by norm_num) (min_le_left 180 _)
  · intro m r hm
    unfold getScrollFromRotation
    have h0 : 0 ≤ max 0 (min 180 r) := le_max_left 0 _
    have h180 : max 0 (min 180 r) ≤ 180 := max_le (by norm_num) (min_le_left 180 _)
    constructor
    · positivity
    · have hdiv : max 0 (min 180 r) / 180 ≤ 1 := by
        rw [div_le_one (by norm_num : (0 : ℚ) < 180)]
        exact h180
      calc max 0 (min 180 r) / 180 * m ≤ 1 * m :=
            mul_le_mul_of_nonneg_right hdiv hm
        _ = m := one_mul m

/-- C10 witness: a 90-degree rotation against a 500-pixel scroll range
stays inside the clamps. -/
theorem disc_clamp_props_witness :
    0 ≤ getScrollFromRotation 500 90 ∧ getScrollFromRotation 500 90 ≤ 500 :=
  disc_clamp_props.2 500 90 (by norm_num)

/-- Tick position of `buildSVG` in the third variant of `src/time-disc.js`:
`tickY = yearRatio * trackHeight` with `trackHeight = h * TRACK_SCALE` and
`TRACK_SCALE = 0.5`. -/
def buildSVG_tickY (h : ℚ) (minYear maxYear year : Int) : ℚ :=
  ((year - minYear : Int) : ℚ) / ((yearSpanOf minYear maxYear : Int) : ℚ) * (h * (1 / 2))

/-- Monotonicity of the proportional tick map in the year, given a positive
span and a nonnegative usable height. -/
theorem render_tickY_mono (h : ℚ) (minYear maxYear : Int)
    (hh : 120 ≤ h) (hspan : 0 < yearSpanOf minYear maxYear) (y1 y2 : Int) (hy : y1 ≤ y2) :
    render_tickY h minYear maxYear y1 ≤ render_tickY h minYear maxYear y2 := by
  unfold render_tickY
  have hc : (0 : ℚ) < ((yearSpanOf minYear maxYear : Int) : ℚ) := by exact_mod_cast hspan
  have hnum : ((y1 - minYear : Int) : ℚ) ≤ ((y2 - minYear : Int) : ℚ) := by
    exact_mod_cast Int.sub_le_sub_right hy minYear
  have hdiv : ((y1 - minYear : Int) : ℚ) / ((yearSpanOf minYear maxYear : Int) : ℚ) ≤
      ((y2 - minYear : Int) : ℚ) / ((yearSpanOf minYear maxYear : Int) : ℚ) :=
    (div_le_div_right hc).mpr hnum
  have husable : (0 : ℚ) ≤ h - 60 * 2 := by linarith
  have := mul_le_mul_of_nonneg_right hdiv husable
  simpa using add_le_add_left this 60

/-- Monotonicity of the compressed-track tick map of `buildSVG`, given a
positive span and a nonnegative viewport height. -/
theorem buildSVG_tickY_mono (h : ℚ) (minYear maxYear : Int)
    (hh : 0 ≤ h) (hspan : 0 < yearSpanOf minYear maxYear) (y1 y2 : Int) (hy : y1 ≤ y2) :
    buildSVG_tickY h minYear maxYear y1 ≤ buildSVG_tickY h minYear maxYear y2 := by
  unfold buildSVG_tickY
  have hc : (0 : ℚ) < ((yearSpanOf minYear maxYear : Int) : ℚ) := by exact_mod_cast hspan
  have hnum : ((y1 - minYear : Int) : ℚ) ≤ ((y2 - minYear : Int) : ℚ) := by
    exact_mod_cast Int.sub_le_sub_right hy minYear
  have hdiv : ((y1 - minYear : Int) : ℚ) / ((yearSpanOf minYear maxYear : Int) : ℚ) ≤
      ((y2 - minYear : Int) : ℚ) / ((yearSpanOf minYear maxYear : Int) : ℚ) :=
    (div_le_div_right hc).mpr hnum
  have htrack : (0 : ℚ) ≤ h * (1 / 2) := by linarith
  exact mul_le_mul_of_nonneg_right hdiv htrack

/-- On a strictly ascending list of at least two years, the span computed
from the first and last year is positive. -/
theorem span_pos_of_sorted (y0 y1 : Int) (tl : List Int)
    (hsorted : (y0 :: y1 :: tl).Pairwise (· < ·)) :
    0 < yearSpanOf (minYearOf (y0 :: y1 :: tl)) (maxYearOf (y0 :: y1 :: tl)) := by
  have hmax : maxYearOf (y0 :: y1 :: tl) ∈ y1 :: tl := by
    unfold maxYearOf
    rw [List.getLastD_cons, List.getLastD_cons]
    exact List.getLastD_mem_cons tl y1
  have hlt : y0 < maxYearOf (y0 :: y1 :: tl) :=
    (List.pairwise_cons.mp hsorted).1 _ hmax
  have hmin : minYearOf (y0 :: y1 :: tl) = y0 := rfl
  rw [hmin]
  unfold yearSpanOf
  split
  · omega
  · omega

/-- C7: on every strictly ascending `timeValue` sequence the
proportional-by-time tick positions are non-decreasing, both for the simple
bar variant of `src/unnamed/part_002` (whenever the viewport is at least as
tall as its two 60-pixel paddings) and for the compressed track of
`buildSVG` in `src/time-disc.js` (any nonnegative viewport height). -/
theorem proportional_mono (h : ℚ) (ys : List Int)
    (hh : 120 ≤ h) (hsorted : ys.Pairwise (· < ·)) :
    (ys.map (fun y => render_tickY h (minYearOf ys) (maxYearOf ys) y)).Pairwise (· ≤ ·) ∧
      (ys.map (fun y => buildSVG_tickY h (minYearOf ys) (maxYearOf ys) y)).Pairwise (· ≤ ·) := by
  match ys, hsorted with
  | [], _ => exact ⟨List.Pairwise.nil, List.Pairwise.nil⟩
  | [y], _ => constructor <;> simp
  | y0 :: y1 :: tl, hsorted =>
    have hspan := span_pos_of_sorted y0 y1 tl hsorted
    have hh0 : (0 : ℚ) ≤ h := by linarith
    constructor
    · rw [List.pairwise_map]
      exact hsorted.imp fun hab =>
        render_tickY_mono h _ _ hh hspan _ _ (le_of_lt hab)
    · rw [List.pairwise_map]
      exact hsorted.imp fun hab =>
        buildSVG_tickY_mono h _ _ hh0 hspan _ _ (le_of_lt hab)

/-- C7 witness: the scenario years 762, 1504, 1889, 1922 map to
non-decreasing positions on an 800-pixel viewport. -/
theorem proportional_mono_witness :
    (([762, 1504, 1889, 1922] : List Int).map
        (fun y => render_tickY 800 (minYearOf [762, 1504, 1889, 1922])
          (maxYearOf [762, 1504, 1889, 1922]) y)).Pairwise (· ≤ ·) :=
  (proportional_mono 800 [762, 1504, 1889, 1922] (by norm_num) (by decide)).1

end TimeSlices
